import Mathlib

/-!
Verification of the awstream runtime (runtime/src) against its
natural-language specification.  The Rust sources are shallowly embedded:
machine integers (`usize`, `u64`) become `ℕ` with explicit `% 2 ^ 64`
where wrap-around matters, `f64` arithmetic on finite values becomes exact
`ℚ` arithmetic, and the IEEE special values that the server-side reporter
manipulates (`+inf`, `NaN`) are modelled by a dedicated extended-value
type.  Fallible Rust code (panics, `Result`) returns `Option`.
-/

set_option linter.unusedVariables false

namespace AW

/-! ## Byte-level utilities

bincode (little-endian) and the big-endian length header of the framed
codec in `runtime/src/lib.rs` are modelled over `List ℕ`, each entry one
byte.  `leBytes k n` is the `k`-byte little-endian encoding of `n`
(truncating to `n % 256 ^ k`, as the Rust integer types do). -/

def leBytes : ℕ → ℕ → List ℕ
  | 0, _ => []
  | k + 1, n => n % 256 :: leBytes k (n / 256)

/-- Read `k` little-endian bytes, returning the value and the rest. -/
def readLE : ℕ → List ℕ → Option (ℕ × List ℕ)
  | 0, l => some (0, l)
  | _ + 1, [] => none
  | k + 1, b :: l => (readLE k l).map (fun v => (b + 256 * v.1, v.2))

/-- Big-endian value of a byte list (the reader side of `read_u64::<BigEndian>`). -/
def beVal (l : List ℕ) : ℕ := l.foldl (fun acc b => acc * 256 + b) 0

/-- `put_u64::<BigEndian>`: the 8-byte big-endian encoding. -/
def u64be (n : ℕ) : List ℕ := (leBytes 8 n).reverse

theorem leBytes_length (k n : ℕ) : (leBytes k n).length = k := by
  induction k generalizing n with
  | zero => rfl
  | succ k ih => simp [leBytes, ih]

theorem readLE_leBytes (k n : ℕ) (rest : List ℕ) :
    readLE k (leBytes k n ++ rest) = some (n % 256 ^ k, rest) := by
  induction k generalizing n with
  | zero => simp [leBytes, readLE, Nat.mod_one]
  | succ k ih =>
      have hs : leBytes (k + 1) n ++ rest = n % 256 :: (leBytes k (n / 256) ++ rest) := rfl
      have hm : n % 256 ^ (k + 1) = n % 256 + 256 * (n / 256 % 256 ^ k) := by
        rw [pow_succ, mul_comm]; exact Nat.mod_mul
      rw [hs]
      show (readLE k (leBytes k (n / 256) ++ rest)).map
          (fun v => (n % 256 + 256 * v.1, v.2)) = some (n % 256 ^ (k + 1), rest)
      rw [ih, hm]
      rfl

theorem beVal_append_singleton (l : List ℕ) (b : ℕ) :
    beVal (l ++ [b]) = beVal l * 256 + b := by
  simp [beVal, List.foldl_append]

theorem beVal_u64be (n : ℕ) : beVal (u64be n) = n % 2 ^ 64 := by
  have h : ∀ k n, beVal (leBytes k n).reverse = n % 256 ^ k := by
    intro k
    induction k with
    | zero => intro n; simp [leBytes, beVal, Nat.mod_one]
    | succ k ih =>
        intro n
        have hm : n % 256 ^ (k + 1) = n % 256 + 256 * (n / 256 % 256 ^ k) := by
          rw [pow_succ, mul_comm]; exact Nat.mod_mul
        simp only [leBytes, List.reverse_cons, beVal_append_singleton, ih, hm]
        ring
  have h64 : (256 : ℕ) ^ 8 = 2 ^ 64 := by norm_num
  simpa [u64be, h64] using h 8 n

/-! ## Datum model (`runtime/src/lib.rs`)

`AsDatum` has fields `t`, `mem`, `ts`, `len` (in declaration order; `len`
carries `#[serde(skip)]` so it is not serialized).  The `chrono` UTC
timestamp serializes through serde as a string; we model a timestamp by
the byte string it serializes to, which is a faithful injective quotient
of the datetime value. -/

inductive AsDatumType where
  | live (level frameNum : ℕ)
  | raw
  | dummy
  | latencyProbe
  | receiverCongest
deriving DecidableEq, Repr

structure AsDatum where
  t : AsDatumType
  mem : List ℕ
  ts : List ℕ
  len : ℕ
deriving DecidableEq, Repr

/-- bincode encoding of the `AsDatumType` enum: a little-endian `u32`
variant tag; the `Live` payload is two `u64` (Rust `usize`) fields. -/
def serializeType : AsDatumType → List ℕ
  | .live level frameNum => leBytes 4 0 ++ leBytes 8 level ++ leBytes 8 frameNum
  | .raw => leBytes 4 1
  | .dummy => leBytes 4 2
  | .latencyProbe => leBytes 4 3
  | .receiverCongest => leBytes 4 4

/-- bincode encoding of an `AsDatum`: fields in declaration order
(`t`, `mem`, `ts`); each `Vec<u8>`-like field is a `u64` length followed
by the raw bytes; `len` is skipped. -/
def serializeDatum (d : AsDatum) : List ℕ :=
  serializeType d.t ++ leBytes 8 d.mem.length ++ d.mem ++
    leBytes 8 d.ts.length ++ d.ts

/-- `AsDatum::update_len`: cache the serialized size in `len`. -/
def AsDatum.updateLen (d : AsDatum) : AsDatum :=
  { d with len := (serializeDatum d).length }

/-- `AsDatum::new` (live data). -/
def AsDatum.mkLive (level frameNum : ℕ) (data ts : List ℕ) : AsDatum :=
  AsDatum.updateLen ⟨.live level frameNum, data, ts, 0⟩

/-- `AsDatum::bw_probe`: a zero-filled probe payload of the given size. -/
def AsDatum.bwProbe (size : ℕ) (ts : List ℕ) : AsDatum :=
  AsDatum.updateLen ⟨.dummy, List.replicate size 0, ts, 0⟩

/-- `AsDatum::latency_probe`: empty payload. -/
def AsDatum.mkLatencyProbe (ts : List ℕ) : AsDatum :=
  AsDatum.updateLen ⟨.latencyProbe, [], ts, 0⟩

/-- `AsDatum::ack`: the serialized receiver report as payload. -/
def AsDatum.ack (mem ts : List ℕ) : AsDatum :=
  AsDatum.updateLen ⟨.receiverCongest, mem, ts, 0⟩

/-- `AsDatum::net_len`: serialized size plus the 8-byte length header. -/
def AsDatum.netLen (d : AsDatum) : ℕ := d.len + 8

/-- A datum whose cached `len` is the true serialized size, with the
`usize` fields inside the representable range; all four constructors
produce only such datums. -/
def AsDatum.wf (d : AsDatum) : Prop :=
  d.len = (serializeDatum d).length ∧ d.len < 2 ^ 64 ∧
    match d.t with
    | .live level frameNum => level < 2 ^ 64 ∧ frameNum < 2 ^ 64
    | _ => True

/-! ## Framed codec (`impl Encoder/Decoder for AsCodec`) -/

inductive CodecState where
  | lenSt
  | payloadSt (len : ℕ)
deriving DecidableEq, Repr

/-- `Encoder::encode`: append the 8-byte big-endian `payload_size`
followed by the serialized datum. -/
def AsCodec.encode (d : AsDatum) (buf : List ℕ) : List ℕ :=
  buf ++ u64be d.len ++ serializeDatum d

/-- Read exactly `k` bytes, or fail. -/
def readBytes (k : ℕ) (l : List ℕ) : Option (List ℕ × List ℕ) :=
  if k ≤ l.length then some (l.take k, l.drop k) else none

/-- bincode deserialization of the enum tag (plus `Live` payload). -/
def deserializeType (l : List ℕ) : Option (AsDatumType × List ℕ) := do
  let (tag, r0) ← readLE 4 l
  match tag with
  | 0 => do
      let (level, r1) ← readLE 8 r0
      let (frameNum, r2) ← readLE 8 r1
      pure (AsDatumType.live level frameNum, r2)
  | 1 => pure (AsDatumType.raw, r0)
  | 2 => pure (AsDatumType.dummy, r0)
  | 3 => pure (AsDatumType.latencyProbe, r0)
  | 4 => pure (AsDatumType.receiverCongest, r0)
  | _ => none

/-- bincode deserialization of an `AsDatum` from a payload; the skipped
`len` field defaults to 0, and trailing bytes are ignored (the Rust code
reads from a cursor). -/
def deserializeDatum (payload : List ℕ) : Option AsDatum := do
  let (t, r0) ← deserializeType payload
  let (memLen, r1) ← readLE 8 r0
  let (mem, r2) ← readBytes memLen r1
  let (tsLen, r3) ← readLE 8 r2
  let (ts, _r4) ← readBytes tsLen r3
  pure ⟨t, mem, ts, 0⟩

/-- The `CodecState::Payload` half of `Decoder::decode`: wait for `len`
bytes, then deserialize and stamp the header length into `datum.len`.
`none` models the `DecodeError` path. -/
def decodePayload (len : ℕ) (buf : List ℕ) :
    Option (CodecState × Option AsDatum × List ℕ) :=
  if buf.length < len then some (.payloadSt len, none, buf)
  else
    match deserializeDatum (buf.take len) with
    | none => none
    | some d => some (.lenSt, some { d with len := len }, buf.drop len)

/-- `Decoder::decode`: the `AwaitLen -> AwaitPayload` loop of
`runtime/src/lib.rs`. -/
def AsCodec.decode (st : CodecState) (buf : List ℕ) :
    Option (CodecState × Option AsDatum × List ℕ) :=
  match st with
  | .lenSt =>
      if buf.length < 8 then some (.lenSt, none, buf)
      else decodePayload (beVal (buf.take 8)) (buf.drop 8)
  | .payloadSt len => decodePayload len buf

theorem deserializeType_serializeType (t : AsDatumType) (rest : List ℕ)
    (h : match t with
      | .live level frameNum => level < 2 ^ 64 ∧ frameNum < 2 ^ 64
      | _ => True) :
    deserializeType (serializeType t ++ rest) = some (t, rest) := by
  cases t with
  | live level frameNum =>
      obtain ⟨hl, hf⟩ := h
      have h64 : (256 : ℕ) ^ 8 = 2 ^ 64 := by norm_num
      have hl8 : level % 256 ^ 8 = level := by rw [h64]; exact Nat.mod_eq_of_lt hl
      have hf8 : frameNum % 256 ^ 8 = frameNum := by rw [h64]; exact Nat.mod_eq_of_lt hf
      simp only [serializeType, deserializeType, List.append_assoc, readLE_leBytes,
        hl8, hf8]
      simp [readLE_leBytes, hl8, hf8]
      omega
  | raw => simp [serializeType, deserializeType, readLE_leBytes]
  | dummy => simp [serializeType, deserializeType, readLE_leBytes]
  | latencyProbe => simp [serializeType, deserializeType, readLE_leBytes]
  | receiverCongest => simp [serializeType, deserializeType, readLE_leBytes]

theorem readBytes_append (l rest : List ℕ) :
    readBytes l.length (l ++ rest) = some (l, rest) := by
  simp [readBytes, List.take_left, List.drop_left]

theorem readBytes_self (l : List ℕ) : readBytes l.length l = some (l, []) := by
  simp [readBytes, List.take_length, List.drop_length]

theorem deserializeDatum_serializeDatum (d : AsDatum)
    (hmem : d.mem.length < 2 ^ 64) (hts : d.ts.length < 2 ^ 64)
    (ht : match d.t with
      | .live level frameNum => level < 2 ^ 64 ∧ frameNum < 2 ^ 64
      | _ => True) :
    deserializeDatum (serializeDatum d) = some ⟨d.t, d.mem, d.ts, 0⟩ := by
  have hm8 : d.mem.length % 18446744073709551616 = d.mem.length :=
    Nat.mod_eq_of_lt (by omega)
  have ht8 : d.ts.length % 18446744073709551616 = d.ts.length :=
    Nat.mod_eq_of_lt (by omega)
  have hser : serializeDatum d = serializeType d.t ++
      (leBytes 8 d.mem.length ++ (d.mem ++ (leBytes 8 d.ts.length ++ d.ts))) := by
    simp [serializeDatum]
  rw [hser]
  simp [deserializeDatum, deserializeType_serializeType d.t _ ht,
    readLE_leBytes, hm8, ht8, readBytes_append, readBytes_self]

/-- Claim C6: for every well-formed datum (as produced by each of the
four constructors: live, bandwidth probe, latency probe, receiver
report), encoding into an empty buffer yields exactly
`net_len = 8 + serialized_size` bytes, and decoding that buffer returns
the datum with all fields intact, including the timestamp and the cached
length, leaving an empty buffer and the decoder back in the length
state. -/
theorem asCodec_encode_decode_roundtrip (d : AsDatum) (h : d.wf) :
    (AsCodec.encode d []).length = d.netLen ∧
    AsCodec.decode .lenSt (AsCodec.encode d []) = some (.lenSt, some d, []) := by
  obtain ⟨hlen, hlt, ht⟩ := h
  have hmem : d.mem.length < 2 ^ 64 := by
    have : d.mem.length ≤ (serializeDatum d).length := by
      simp [serializeDatum]; omega
    omega
  have hts : d.ts.length < 2 ^ 64 := by
    have : d.ts.length ≤ (serializeDatum d).length := by
      simp [serializeDatum]; omega
    omega
  have hlen8 : (u64be d.len).length = 8 := by simp [u64be, leBytes_length]
  constructor
  · simp [AsCodec.encode, AsDatum.netLen, u64be, leBytes_length, ← hlen]; omega
  · have henc : AsCodec.encode d [] = u64be d.len ++ serializeDatum d := by
      simp [AsCodec.encode]
    rw [henc]
    have hlong : ¬ (u64be d.len ++ serializeDatum d).length < 8 := by
      simp [hlen8]
    have htake : (u64be d.len ++ serializeDatum d).take 8 = u64be d.len := by
      rw [← hlen8]; exact List.take_left _ _
    have hdrop : (u64be d.len ++ serializeDatum d).drop 8 = serializeDatum d := by
      rw [← hlen8]; exact List.drop_left _ _
    have hnlt : ¬ (serializeDatum d).length < d.len := by omega
    simp only [AsCodec.decode, hlong, if_false, htake, hdrop, beVal_u64be,
      Nat.mod_eq_of_lt hlt, decodePayload, hnlt, if_false]
    have hfull : (serializeDatum d).take d.len = serializeDatum d := by
      rw [hlen]; exact List.take_length _
    have hempty : (serializeDatum d).drop d.len = [] := by
      rw [hlen]; exact List.drop_length _
    rw [hfull, hempty, deserializeDatum_serializeDatum d hmem hts ht]

/-- Claim C6 witness: a concrete live datum round-trips. -/
theorem asCodec_encode_decode_roundtrip_witness :
    (AsDatum.mkLive 3 42 [7, 8] [9]).wf ∧
      (AsCodec.encode (AsDatum.mkLive 3 42 [7, 8]  [9]) []).length =
        (AsDatum.mkLive 3 42 [7, 8] [9]).netLen ∧
      AsCodec.decode .lenSt (AsCodec.encode (AsDatum.mkLive 3 42 [7, 8] [9]) []) =
        some (.lenSt, some (AsDatum.mkLive 3 42 [7, 8] [9]), []) := by
  have hwf : (AsDatum.mkLive 3 42 [7, 8] [9]).wf := by
    refine ⟨by rfl, by decide, ?_⟩
    exact (by decide : (3 : ℕ) < 2 ^ 64 ∧ (42 : ℕ) < 2 ^ 64)
  exact ⟨hwf, asCodec_encode_decode_roundtrip (AsDatum.mkLive 3 42 [7, 8] [9]) hwf⟩

/-! ## Framed sink (`runtime/src/socket.rs`)

`Socket` owns the outbound buffer and the write half of the TCP stream.
The underlying `AsyncWrite` is modelled by a script of write results
(`WouldBlock` or `Ok(n)`) plus a script of flush results; an exhausted
script stands for a stream that is not ready.  `poll_complete` drains the
buffer, adding every accepted byte count to the shared consumed-bytes
counter; `Ok(0)` while the buffer is non-empty is the write-zero error,
and a reported count larger than the buffer (impossible for a real OS
write) is mapped to the same fatal outcome. -/

inductive WriteResult where
  | wouldBlock
  | wrote (n : ℕ)
deriving DecidableEq, Repr

inductive PollOutcome where
  | ready
  | notReady
  | ioError
deriving DecidableEq, Repr

structure Socket where
  buffer : List ℕ
  bytes : ℕ
  writes : List WriteResult
  flushes : List Bool
deriving DecidableEq, Repr

def INITIAL_CAPACITY : ℕ := 32 * 1024

def BACKPRESSURE_BOUNDARY : ℕ := INITIAL_CAPACITY

inductive DrainRes where
  | blocked (ws : List WriteResult) (buf : List ℕ) (acc : ℕ)
  | ioErr (ws : List WriteResult) (buf : List ℕ) (acc : ℕ)
  | drained (ws : List WriteResult) (buf : List ℕ) (acc : ℕ)
deriving DecidableEq, Repr

/-- The `while !self.buffer.is_empty()` loop of `poll_complete`. -/
def drainLoop : List WriteResult → List ℕ → ℕ → DrainRes
  | ws, buf, acc =>
    if buf.isEmpty then .drained ws buf acc
    else
      match ws with
      | [] => .blocked [] buf acc
      | .wouldBlock :: rest => .blocked rest buf acc
      | .wrote n :: rest =>
          if n = 0 then .ioErr rest buf (acc + n)
          else if buf.length < n then .ioErr rest buf (acc + n)
          else drainLoop rest (buf.drop n) (acc + n)

/-- `Sink::poll_complete`: drain the buffer, then flush the underlying
stream. -/
def Socket.pollComplete (s : Socket) : PollOutcome × Socket :=
  match drainLoop s.writes s.buffer s.bytes with
  | .blocked ws buf acc =>
      (.notReady, { s with writes := ws, buffer := buf, bytes := acc })
  | .ioErr ws buf acc =>
      (.ioError, { s with writes := ws, buffer := buf, bytes := acc })
  | .drained ws buf acc =>
      match s.flushes with
      | [] => (.ready, { s with writes := ws, buffer := buf, bytes := acc })
      | f :: rest =>
          if f then
            (.ready, { s with writes := ws, buffer := buf, bytes := acc, flushes := rest })
          else
            (.notReady, { s with writes := ws, buffer := buf, bytes := acc, flushes := rest })

inductive StartSend where
  | ready
  | notReady (d : AsDatum)
  | fatal
deriving DecidableEq, Repr

/-- The bytes a single encoded frame appends to a buffer. -/
def frameBytes (item : AsDatum) : List ℕ := u64be item.len ++ serializeDatum item

/-- Encoding a datum into the sink buffer (`self.encoder.encode(item, &mut self.buffer)`). -/
def Socket.encodeInto (s : Socket) (item : AsDatum) : Socket :=
  { s with buffer := AsCodec.encode item s.buffer }

/-- `Sink::start_send`: apply backpressure at `BACKPRESSURE_BOUNDARY`,
flushing once before rejecting. -/
def Socket.startSend (s : Socket) (item : AsDatum) : StartSend × Socket :=
  if BACKPRESSURE_BOUNDARY ≤ s.buffer.length then
    match s.pollComplete with
    | (.ioError, s1) => (.fatal, s1)
    | (_, s1) =>
        if BACKPRESSURE_BOUNDARY ≤ s1.buffer.length then (.notReady item, s1)
        else (.ready, s1.encodeInto item)
  else (.ready, s.encodeInto item)

/-- Claim C8: provided the flush attempt does not hit a fatal I/O error,
`start_send` behaves as specified: with the buffer at or above the
32 KiB threshold it first flushes, and returns `NotReady` carrying the
datum back, without encoding it, exactly when the flushed buffer is still
at or above the threshold; in every other case it appends the encoded
frame to the buffer and returns `Ready`. -/
theorem socket_startSend_backpressure (s : Socket) (item : AsDatum)
    (hflush : (s.pollComplete).1 ≠ .ioError) :
    (BACKPRESSURE_BOUNDARY ≤ s.buffer.length →
       (BACKPRESSURE_BOUNDARY ≤ (s.pollComplete).2.buffer.length →
          s.startSend item = (.notReady item, (s.pollComplete).2)) ∧
       ((s.pollComplete).2.buffer.length < BACKPRESSURE_BOUNDARY →
          s.startSend item =
            (.ready, { (s.pollComplete).2 with
                        buffer := (s.pollComplete).2.buffer ++ frameBytes item }))) ∧
    (s.buffer.length < BACKPRESSURE_BOUNDARY →
       s.startSend item =
         (.ready, { s with buffer := s.buffer ++ frameBytes item })) := by
  rcases hps : s.pollComplete with ⟨o, s1⟩
  rw [hps] at hflush
  simp only at hflush
  refine ⟨fun hge => ⟨fun hstill => ?_, fun hlt => ?_⟩, fun hlt => ?_⟩
  · cases o with
    | ioError => exact absurd rfl hflush
    | ready =>
        simp [Socket.startSend, hps, if_pos hge, hstill]
    | notReady =>
        simp [Socket.startSend, hps, if_pos hge, hstill]
  · have hnot : ¬ BACKPRESSURE_BOUNDARY ≤ s1.buffer.length := by
      simp only at hlt; omega
    cases o with
    | ioError => exact absurd rfl hflush
    | ready =>
        simp [Socket.startSend, hps, if_pos hge, hnot, Socket.encodeInto,
          AsCodec.encode, frameBytes, List.append_assoc]
    | notReady =>
        simp [Socket.startSend, hps, if_pos hge, hnot, Socket.encodeInto,
          AsCodec.encode, frameBytes, List.append_assoc]
  · have hnot : ¬ BACKPRESSURE_BOUNDARY ≤ s.buffer.length := by omega
    simp [Socket.startSend, hnot, Socket.encodeInto, AsCodec.encode,
      frameBytes, List.append_assoc]

/-- Claim C8 witness: a fresh empty sink accepts a concrete datum. -/
theorem socket_startSend_backpressure_witness :
    ((Socket.mk [] 0 [] []).pollComplete).1 ≠ .ioError ∧
      (Socket.mk [] 0 [] []).buffer.length < BACKPRESSURE_BOUNDARY ∧
      (Socket.mk [] 0 [] []).startSend (AsDatum.mkLatencyProbe []) =
        (.ready, { Socket.mk [] 0 [] [] with
                    buffer := ([] : List ℕ) ++ frameBytes (AsDatum.mkLatencyProbe []) }) := by
  have h1 : ((Socket.mk [] 0 [] []).pollComplete).1 ≠ .ioError := by
    simp [Socket.pollComplete, drainLoop]
  have h2 : (Socket.mk [] 0 [] []).buffer.length < BACKPRESSURE_BOUNDARY := by
    simp [BACKPRESSURE_BOUNDARY, INITIAL_CAPACITY]
  exact ⟨h1, h2,
    (socket_startSend_backpressure (Socket.mk [] 0 [] [])
      (AsDatum.mkLatencyProbe []) h1).2 h2⟩

/-! ## IEEE special values

The latency estimates flowing through the monitor and the server-side
reporter are `f64` values that can genuinely become `+inf` (division by a
zero rate) or `NaN` (`0.0 / 0.0`).  `F` models an `f64` as an exact
rational extended with the three special values; the operations below
implement the IEEE rules for the cases that occur. -/

inductive F where
  | nan
  | ninf
  | inf
  | fin (q : ℚ)
deriving DecidableEq, Repr

def F.add : F → F → F
  | .nan, _ => .nan
  | _, .nan => .nan
  | .inf, .ninf => .nan
  | .ninf, .inf => .nan
  | .inf, _ => .inf
  | _, .inf => .inf
  | .ninf, _ => .ninf
  | _, .ninf => .ninf
  | .fin a, .fin b => .fin (a + b)

/-- `partial_cmp` on `f64`: `none` when either side is NaN. -/
def F.pcmp : F → F → Option Ordering
  | .nan, _ => none
  | _, .nan => none
  | .inf, .inf => some .eq
  | .ninf, .ninf => some .eq
  | .inf, _ => some .gt
  | _, .inf => some .lt
  | .ninf, _ => some .lt
  | _, .ninf => some .gt
  | .fin a, .fin b =>
      some (if a < b then .lt else if a = b then .eq else .gt)

/-- The `f64` comparison `a > b` (false whenever NaN is involved). -/
def F.fgt (a b : F) : Bool :=
  match F.pcmp a b with
  | some .gt => true
  | _ => false

/-- `f64` division of finite values, with the IEEE results for a zero
divisor. -/
def fdiv (a b : ℚ) : F :=
  if b = 0 then
    if a = 0 then .nan else if 0 < a then .inf else .ninf
  else .fin (a / b)

/-! ## Adaptation machine (`runtime/src/adaptation.rs`)

Rates (`f64`) are modelled as exact rationals; the latency riding along
in a congestion signal is an `F`, since the monitor can genuinely compute
an infinite latency estimate.  The adaptation machine never inspects
it. -/

inductive Signal where
  | queueCongest (rate : ℚ) (latency : F)
  | queueEmpty
  | remoteCongest (rate : ℚ) (latency : F)
  | probeDone
deriving DecidableEq, Repr

inductive Action where
  | noOp
  | advanceConfig
  | adjustConfig (rate : ℚ)
  | startProbe
  | increaseProbePace
  | stopProbe
deriving DecidableEq, Repr

inductive AdaptState where
  | startup
  | degrade
  | steady
  | probe
deriving DecidableEq, Repr

structure Adaptation where
  state : AdaptState
  steady_count : ℕ
  startup_congest : ℕ
deriving DecidableEq, Repr

/-- `Adaptation::default`. -/
def Adaptation.init : Adaptation := ⟨.startup, 0, 0⟩

def STARTUP_CONGEST_ENOUGH : ℕ := 3

def STEADY_ENOUGH : ℕ := 3

/-- `Adaptation::transit`; `none` models the `unimplemented!` abort on an
unhandled (state, signal) combination. -/
def Adaptation.transit (a : Adaptation) (signal : Signal) (maxConfig : Bool) :
    Option (Adaptation × Action) :=
  match a.state, signal, maxConfig with
  | .startup, .queueEmpty, false => some (a, .advanceConfig)
  | .startup, .queueEmpty, true => some ({ a with state := .steady }, .noOp)
  | .startup, .queueCongest rate _, _
  | .startup, .remoteCongest rate _, _ =>
      if STARTUP_CONGEST_ENOUGH < a.startup_congest then
        some ({ a with startup_congest := 0, state := .degrade }, .adjustConfig rate)
      else
        some ({ a with startup_congest := a.startup_congest + 1 }, .noOp)
  | .degrade, .queueCongest rate _, _
  | .degrade, .remoteCongest rate _, _ =>
      some ({ a with state := .degrade }, .adjustConfig rate)
  | .degrade, .queueEmpty, _ => some ({ a with state := .steady }, .noOp)
  | .steady, .queueCongest rate _, _
  | .steady, .remoteCongest rate _, _ =>
      some ({ a with steady_count := 0, state := .degrade }, .adjustConfig rate)
  | .steady, .queueEmpty, false =>
      if STEADY_ENOUGH < a.steady_count then
        some ({ a with steady_count := 0, state := .probe }, .startProbe)
      else
        some ({ a with steady_count := a.steady_count + 1 }, .noOp)
  | .probe, .queueCongest _ _, _
  | .probe, .remoteCongest _ _, _ =>
      some ({ a with state := .steady }, .stopProbe)
  | .probe, .probeDone, _ => some ({ a with state := .steady }, .advanceConfig)
  | .probe, .queueEmpty, _ => some (a, .increaseProbePace)
  | .steady, .queueEmpty, true => some (a, .noOp)
  | _, _, _ => none

/-- Claim C1 counterexample: the very first `QueueCongest` in `Startup`
does not follow the table row `Startup --congest--> Degrade,
AdjustConfig(rate)`; the code tolerates it, stays in `Startup`, counts
it, and returns `NoOp`. -/
theorem adaptation_startup_congest_counterexample :
    Adaptation.transit Adaptation.init (.queueCongest 100 (.fin 2)) false =
      some (⟨.startup, 0, 1⟩, .noOp) ∧
    Adaptation.transit Adaptation.init (.queueCongest 100 (.fin 2)) false ≠
      some (⟨.degrade, 0, 0⟩, .adjustConfig 100) := by
  constructor
  · rfl
  · decide

/-- Claim C1 amended: every row of the transition table holds as written
for a single `transit` call, except the two counter-gated rows: a
congestion signal in `Startup` produces `(Degrade, AdjustConfig rate)`
(resetting the counter) only once the startup-congestion counter exceeds
3, and otherwise increments it, stays in `Startup` and returns `NoOp`;
`QueueEmpty` in `Steady` below the maximum level produces
`(Probe, StartProbe)` (resetting the counter) only once the steady
counter exceeds 3, and otherwise increments it, stays in `Steady` and
returns `NoOp`.  `AdjustConfig` always carries the rate of the congestion
signal. -/
theorem adaptation_transit_table (t c : ℕ) (rate : ℚ) (latency : F) :
    (Adaptation.transit ⟨.startup, t, c⟩ .queueEmpty false =
        some (⟨.startup, t, c⟩, .advanceConfig)) ∧
    (Adaptation.transit ⟨.startup, t, c⟩ .queueEmpty true =
        some (⟨.steady, t, c⟩, .noOp)) ∧
    (∀ m, Adaptation.transit ⟨.startup, t, c⟩ (.queueCongest rate latency) m =
        if 3 < c then some (⟨.degrade, t, 0⟩, .adjustConfig rate)
        else some (⟨.startup, t, c + 1⟩, .noOp)) ∧
    (∀ m, Adaptation.transit ⟨.startup, t, c⟩ (.remoteCongest rate latency) m =
        if 3 < c then some (⟨.degrade, t, 0⟩, .adjustConfig rate)
        else some (⟨.startup, t, c + 1⟩, .noOp)) ∧
    (∀ m, Adaptation.transit ⟨.degrade, t, c⟩ (.queueCongest rate latency) m =
        some (⟨.degrade, t, c⟩, .adjustConfig rate)) ∧
    (∀ m, Adaptation.transit ⟨.degrade, t, c⟩ (.remoteCongest rate latency) m =
        some (⟨.degrade, t, c⟩, .adjustConfig rate)) ∧
    (∀ m, Adaptation.transit ⟨.degrade, t, c⟩ .queueEmpty m =
        some (⟨.steady, t, c⟩, .noOp)) ∧
    (∀ m, Adaptation.transit ⟨.steady, t, c⟩ (.queueCongest rate latency) m =
        some (⟨.degrade, 0, c⟩, .adjustConfig rate)) ∧
    (∀ m, Adaptation.transit ⟨.steady, t, c⟩ (.remoteCongest rate latency) m =
        some (⟨.degrade, 0, c⟩, .adjustConfig rate)) ∧
    (Adaptation.transit ⟨.steady, t, c⟩ .queueEmpty false =
        if 3 < t then some (⟨.probe, 0, c⟩, .startProbe)
        else some (⟨.steady, t + 1, c⟩, .noOp)) ∧
    (Adaptation.transit ⟨.steady, t, c⟩ .queueEmpty true =
        some (⟨.steady, t, c⟩, .noOp)) ∧
    (∀ m, Adaptation.transit ⟨.probe, t, c⟩ (.queueCongest rate latency) m =
        some (⟨.steady, t, c⟩, .stopProbe)) ∧
    (∀ m, Adaptation.transit ⟨.probe, t, c⟩ (.remoteCongest rate latency) m =
        some (⟨.steady, t, c⟩, .stopProbe)) ∧
    (∀ m, Adaptation.transit ⟨.probe, t, c⟩ .probeDone m =
        some (⟨.steady, t, c⟩, .advanceConfig)) ∧
    (∀ m, Adaptation.transit ⟨.probe, t, c⟩ .queueEmpty m =
        some (⟨.probe, t, c⟩, .increaseProbePace)) := by
  refine ⟨?_, ?_, ?_, ?_, ?_, ?_, ?_, ?_, ?_, ?_, ?_, ?_, ?_, ?_, ?_⟩ <;>
    first
      | rfl
      | (intro m; cases m <;>
          simp [Adaptation.transit, STARTUP_CONGEST_ENOUGH, STEADY_ENOUGH])

/-! ## Degradation profile (`runtime/src/profile.rs`)

Bandwidths (`f64`) become exact rationals.  The `usize - 1` subtractions
are modelled by truncated `ℕ` subtraction; all uses keep the level list
non-empty, where the two agree (for an empty list the Rust code would
wrap and then panic on the out-of-range index). -/

structure SimpleProfile where
  levels : List ℚ
  current : ℕ
  adjust_sticky_count : ℕ
deriving DecidableEq, Repr

def ADJUST_STICKY_MAX : ℕ := 3

/-- `v.partial_cmp(&bw)` on finite values. -/
def cmpQ (a b : ℚ) : Ordering :=
  if a < b then .lt else if a = b then .eq else .gt

/-- Rust `slice::binary_search_by` (the split-at implementation shipped
with the toolchains of this era): split at `half = len / 2`; the loop
ends with `Err(base)` when the tail is empty, i.e. exactly when the slice
is empty; otherwise compare the tail head `s[half]` and recurse on
`tail[1..]` (adding `head.len() + 1` to the base) or on the head part.
`Sum.inl` is `Ok`, `Sum.inr` is `Err` with the insertion point. -/
def binarySearchGo (bw : ℚ) (base : ℕ) (s : List ℚ) : ℕ ⊕ ℕ :=
  if s = [] then Sum.inr base
  else
    match cmpQ (s.getD (s.length / 2) 0) bw with
    | .lt => binarySearchGo bw (base + s.length / 2 + 1) (s.drop (s.length / 2 + 1))
    | .gt => binarySearchGo bw base (s.take (s.length / 2))
    | .eq => Sum.inl (base + s.length / 2)
termination_by s.length
decreasing_by
  · have : 0 < s.length := List.length_pos.mpr (by assumption)
    simp [List.length_drop]
    omega
  · have : 0 < s.length := List.length_pos.mpr (by assumption)
    simp [List.length_take]
    omega

/-- `SimpleProfile::get_level_index`: on a miss, take the element
immediately below the query (or index 0). -/
def SimpleProfile.get_level_index (p : SimpleProfile) (bw : ℚ) : ℕ :=
  match binarySearchGo bw 0 p.levels with
  | Sum.inl i => i
  | Sum.inr i => if i = 0 then 0 else i - 1

/-- `SimpleProfile::decrease_level`. -/
def SimpleProfile.decrease_level (p : SimpleProfile) : SimpleProfile × Option ℕ :=
  if 0 < p.current then
    ({ p with current := p.current - 1 }, some (p.current - 1))
  else (p, none)

/-- `SimpleProfile::adjust_level`: only ever moves down; when the lookup
keeps hitting the current level, a sticky counter forces one extra
decrease after `ADJUST_STICKY_MAX` no-ops. -/
def SimpleProfile.adjust_level (p : SimpleProfile) (bw : ℚ) : SimpleProfile × Option ℕ :=
  if p.get_level_index bw < p.current then
    ({ p with current := p.get_level_index bw, adjust_sticky_count := ADJUST_STICKY_MAX },
      some (p.get_level_index bw))
  else if p.current = p.get_level_index bw then
    if p.adjust_sticky_count = 0 then
      SimpleProfile.decrease_level { p with adjust_sticky_count := ADJUST_STICKY_MAX }
    else ({ p with adjust_sticky_count := p.adjust_sticky_count - 1 }, none)
  else (p, none)

/-- `SimpleProfile::advance_level`. -/
def SimpleProfile.advance_level (p : SimpleProfile) : SimpleProfile × Option ℕ :=
  if p.current < p.levels.length - 1 then
    ({ p with current := p.current + 1 }, some (p.current + 1))
  else (p, none)

/-- `SimpleProfile::next_rate_delta`. -/
def SimpleProfile.next_rate_delta (p : SimpleProfile) : Option ℚ :=
  if p.current < p.levels.length - 1 then
    some (p.levels.getD (p.current + 1) 0 - p.levels.getD p.current 0)
  else none

/-- `SimpleProfile::is_max`. -/
def SimpleProfile.is_max (p : SimpleProfile) : Bool :=
  p.current == p.levels.length - 1

theorem binarySearchGo_bound (bw : ℚ) :
    ∀ (n : ℕ) (s : List ℚ) (base : ℕ), s.length ≤ n →
      (∀ i, binarySearchGo bw base s = Sum.inl i → i < base + s.length) ∧
      (∀ i, binarySearchGo bw base s = Sum.inr i → i ≤ base + s.length) := by
  intro n
  induction n with
  | zero =>
      intro s base hle
      have hnil : s = [] := List.eq_nil_of_length_eq_zero (by omega)
      subst hnil
      rw [binarySearchGo]
      exact ⟨fun i hi => by simp at hi, fun i hi => by simp at hi; omega⟩
  | succ n ih =>
      intro s base hle
      by_cases hnil : s = []
      · subst hnil
        rw [binarySearchGo]
        exact ⟨fun i hi => by simp at hi, fun i hi => by simp at hi; omega⟩
      · have hpos : 0 < s.length := List.length_pos.mpr hnil
        rw [binarySearchGo, if_neg hnil]
        cases hcmp : cmpQ (s.getD (s.length / 2) 0) bw with
        | lt =>
            simp only [hcmp]
            have hsub := ih (s.drop (s.length / 2 + 1)) (base + s.length / 2 + 1)
              (by simp [List.length_drop]; omega)
            refine ⟨fun i hi => ?_, fun i hi => ?_⟩
            · have := hsub.1 i hi
              simp only [List.length_drop] at this
              omega
            · have := hsub.2 i hi
              simp only [List.length_drop] at this
              omega
        | gt =>
            simp only [hcmp]
            have hsub := ih (s.take (s.length / 2)) base
              (by simp [List.length_take]; omega)
            refine ⟨fun i hi => ?_, fun i hi => ?_⟩
            · have := hsub.1 i hi
              simp only [List.length_take] at this
              omega
            · have := hsub.2 i hi
              simp only [List.length_take] at this
              omega
        | eq =>
            simp only [hcmp]
            exact ⟨fun i hi => by simp at hi; omega, fun i hi => by simp at hi⟩

theorem get_level_index_lt (p : SimpleProfile) (bw : ℚ)
    (hlen : 0 < p.levels.length) :
    p.get_level_index bw < p.levels.length := by
  unfold SimpleProfile.get_level_index
  rcases hb : binarySearchGo bw 0 p.levels with i | i
  · have hbd := (binarySearchGo_bound bw p.levels.length p.levels 0 le_rfl).1 i hb
    show i < p.levels.length
    omega
  · have hbd := (binarySearchGo_bound bw p.levels.length p.levels 0 le_rfl).2 i hb
    show (if i = 0 then 0 else i - 1) < p.levels.length
    rcases Nat.eq_zero_or_pos i with h0 | h0
    · simp [h0]; omega
    · rw [if_neg (by omega)]; omega

/-! Operation sequences over a profile, for the level-state invariant. -/

inductive ProfileOp where
  | adjust (bw : ℚ)
  | advance
  | decrease
deriving Repr

def applyOp (p : SimpleProfile) : ProfileOp → SimpleProfile
  | .adjust bw => (p.adjust_level bw).1
  | .advance => p.advance_level.1
  | .decrease => p.decrease_level.1

def runOps (p : SimpleProfile) (ops : List ProfileOp) : SimpleProfile :=
  ops.foldl applyOp p

theorem decrease_level_levels (p : SimpleProfile) :
    p.decrease_level.1.levels = p.levels := by
  unfold SimpleProfile.decrease_level
  split <;> rfl

theorem applyOp_levels (p : SimpleProfile) (op : ProfileOp) :
    (applyOp p op).levels = p.levels := by
  cases op with
  | adjust bw =>
      simp only [applyOp, SimpleProfile.adjust_level]
      split
      · rfl
      · split
        · split
          · exact decrease_level_levels _
          · rfl
        · rfl
  | advance =>
      simp only [applyOp, SimpleProfile.advance_level]
      split <;> rfl
  | decrease => exact decrease_level_levels p

theorem decrease_level_le (p : SimpleProfile) :
    p.decrease_level.1.current ≤ p.current := by
  unfold SimpleProfile.decrease_level
  split
  · simp
  · exact le_rfl

theorem adjust_level_le (p : SimpleProfile) (bw : ℚ) :
    (p.adjust_level bw).1.current ≤ p.current := by
  unfold SimpleProfile.adjust_level
  split
  · next hlt => simp; omega
  · split
    · split
      · next hcur hz =>
          have := decrease_level_le { p with adjust_sticky_count := ADJUST_STICKY_MAX }
          simpa using this
      · simp
    · simp

theorem advance_level_ge (p : SimpleProfile) :
    p.current ≤ p.advance_level.1.current := by
  unfold SimpleProfile.advance_level
  split <;> simp

theorem decrease_level_lt (p : SimpleProfile)
    (hcur : p.current < p.levels.length) :
    p.decrease_level.1.current < p.levels.length := by
  unfold SimpleProfile.decrease_level
  split
  · simp; omega
  · simpa using hcur

theorem applyOp_current_lt (p : SimpleProfile) (op : ProfileOp)
    (hlen : 0 < p.levels.length) (hcur : p.current < p.levels.length) :
    (applyOp p op).current < p.levels.length := by
  cases op with
  | adjust bw =>
      have hidx := get_level_index_lt p bw hlen
      simp only [applyOp, SimpleProfile.adjust_level]
      split
      · simpa using hidx
      · split
        · split
          · have := decrease_level_lt { p with adjust_sticky_count := ADJUST_STICKY_MAX }
              (by simpa using hcur)
            simpa using this
          · simpa using hcur
        · simpa using hcur
  | advance =>
      simp only [applyOp, SimpleProfile.advance_level]
      split
      · next hc => simp; omega
      · simpa using hcur
  | decrease => exact decrease_level_lt p hcur

/-- Claim C7: for every profile with at least one level and any sequence
of `adjust_level` / `advance_level` / `decrease_level` calls starting
from a valid level (in particular level 0), the current level stays
within `0 ≤ current < profile.len()`; moreover no single `adjust_level`
call ever increases the level and no `advance_level` call ever decreases
it. -/
theorem profile_level_invariant (p : SimpleProfile) (ops : List ProfileOp)
    (hlen : 0 < p.levels.length) (hcur : p.current < p.levels.length) :
    (runOps p ops).current < (runOps p ops).levels.length ∧
    (∀ bw, (p.adjust_level bw).1.current ≤ p.current) ∧
    p.current ≤ p.advance_level.1.current := by
  refine ⟨?_, fun bw => adjust_level_le p bw, advance_level_ge p⟩
  induction ops generalizing p with
  | nil => simpa [runOps] using hcur
  | cons op rest ih =>
      have hl1 := applyOp_levels p op
      have h1 := applyOp_current_lt p op hlen hcur
      have := ih (applyOp p op) (by rw [hl1]; exact hlen) (by rw [hl1]; exact h1)
      simpa [runOps] using this

/-- Claim C7 witness: a three-level profile survives a concrete mixed
call sequence. -/
theorem profile_level_invariant_witness :
    0 < (SimpleProfile.mk [500, 1000, 2000] 0 3).levels.length ∧
    (SimpleProfile.mk [500, 1000, 2000] 0 3).current <
      (SimpleProfile.mk [500, 1000, 2000] 0 3).levels.length ∧
    (runOps (SimpleProfile.mk [500, 1000, 2000] 0 3)
        [.advance, .advance, .decrease]).current <
      (runOps (SimpleProfile.mk [500, 1000, 2000] 0 3)
        [.advance, .advance, .decrease]).levels.length := by
  refine ⟨by decide, by decide, ?_⟩
  exact (profile_level_invariant (SimpleProfile.mk [500, 1000, 2000] 0 3)
    [.advance, .advance, .decrease] (by decide) (by decide)).1

/-! ## Prober (`runtime/src/source.rs`, `ProbeTracker`)

The `f64` pace computation of `start_probe` is carried out in exact
rational arithmetic; `as usize` becomes the (clamped-at-zero) floor.
Rational division by zero yields 0 where Rust `f64` would produce an
infinity; no caller passes a zero `tick_period`. -/

structure ProbeTracker where
  tick_period : ℕ
  target_in_kbps : ℚ
  target_pace : ℕ
  pace : ℕ
  delta : ℕ
deriving DecidableEq, Repr

def NUM_PROBE_REQUIRED : ℕ := 5

/-- `ProbeTracker::new`. -/
def ProbeTracker.new (tick_period : ℕ) : ProbeTracker := ⟨tick_period, 0, 0, 0, 0⟩

/-- The `size_per_tick` computation of `start_probe`:
`bytes_per_sec = kbps * 1000 / 8`, `ticks_per_sec = 1000 / tick_period`,
`size_per_tick = bytes_per_sec / ticks_per_sec`, truncated `as usize`. -/
def paceOf (additional_kbps : ℚ) (tick_period : ℕ) : ℕ :=
  (⌊(additional_kbps * 1000 / 8) / (1000 / (tick_period : ℚ))⌋).toNat

/-- `ProbeTracker::start_probe`. -/
def ProbeTracker.start_probe (t : ProbeTracker) (additional_kbps : ℚ) : ProbeTracker :=
  { t with
    target_in_kbps := additional_kbps,
    target_pace := paceOf additional_kbps t.tick_period,
    delta := paceOf additional_kbps t.tick_period / NUM_PROBE_REQUIRED,
    pace := paceOf additional_kbps t.tick_period / NUM_PROBE_REQUIRED }

/-- `ProbeTracker::inc_pace`. -/
def ProbeTracker.inc_pace (t : ProbeTracker) : Bool × ProbeTracker :=
  if t.pace < t.target_pace then (true, { t with pace := t.pace + t.delta })
  else (false, t)

/-- `ProbeTracker::stop_probe`. -/
def ProbeTracker.stop_probe (t : ProbeTracker) : ProbeTracker :=
  { t with target_in_kbps := 0, target_pace := 0, pace := 0, delta := 0 }

/-- `ProbeTracker::next` (the timestamp of the created probe datum is a
parameter, standing for `Utc::now()`). -/
def ProbeTracker.next (t : ProbeTracker) (ts : List ℕ) : Option AsDatum :=
  if 0 < t.target_pace then some (AsDatum.bwProbe t.pace ts) else none

/-- Iterated `inc_pace`, keeping only the tracker. -/
def incPaceN (t : ProbeTracker) : ℕ → ProbeTracker
  | 0 => t
  | n + 1 => (incPaceN t n).inc_pace.2

/-- The prober state invariant that actually holds (see the amended
claim): `delta` is the integer quotient `target_pace / 5`, the pace never
exceeds `target_pace + delta`, and the pace is positive (at least one
step) exactly when the step is. -/
def ProbeTracker.paceInv (t : ProbeTracker) : Prop :=
  t.delta = t.target_pace / NUM_PROBE_REQUIRED ∧
  t.pace ≤ t.target_pace + t.delta ∧
  (t.delta = 0 → t.pace = 0) ∧
  (0 < t.delta → 0 < t.pace ∧ t.delta ≤ t.pace)

/-- Claim C9 counterexample: the claimed invariant
`0 < current_pace ≤ target_pace` fails on the code.  With an 8 ms tick,
`start_probe(4.0)` yields `target_pace = 4`, so `delta = 4 / 5 = 0` and
`pace = 0` while the tracker is active (`target_pace > 0`); and
`start_probe(51.0)` yields `target_pace = 51`, `delta = 10`, after which
five `inc_pace` calls drive `pace` to `60 > 51 = target_pace`. -/
theorem probeTracker_invariant_counterexample :
    (0 < ((ProbeTracker.new 8).start_probe 4).target_pace ∧
      ¬ 0 < ((ProbeTracker.new 8).start_probe 4).pace) ∧
    (0 < (incPaceN ((ProbeTracker.new 8).start_probe 51) 5).target_pace ∧
      ¬ (incPaceN ((ProbeTracker.new 8).start_probe 51) 5).pace ≤
        (incPaceN ((ProbeTracker.new 8).start_probe 51) 5).target_pace) := by
  have hp4 : paceOf 4 8 = 4 := by norm_num [paceOf]; decide
  have hp51 : paceOf 51 8 = 51 := by norm_num [paceOf]; decide
  refine ⟨⟨?_, ?_⟩, ⟨?_, ?_⟩⟩ <;>
    simp [incPaceN, ProbeTracker.new, ProbeTracker.start_probe,
      ProbeTracker.inc_pace, hp4, hp51, NUM_PROBE_REQUIRED]

/-- Claim C9 amended: after any `start_probe` the invariant
`step = target_pace / 5` (integer division, so the step may be 0 when
`target_pace < 5`), `pace ≤ target_pace + step`, and
`step > 0 → 0 < step ≤ pace` (with `pace = 0` when the step is 0) holds;
every `inc_pace` call preserves it; and when the tracker is inactive
(`target_pace = 0`), `next()` returns nothing. -/
theorem probeTracker_invariant (t : ProbeTracker) (kbps : ℚ) (ts : List ℕ)
    (h : t.paceInv) :
    (t.start_probe kbps).paceInv ∧
    t.inc_pace.2.paceInv ∧
    (t.target_pace = 0 → t.next ts = none) := by
  obtain ⟨h1, h2, h3, h4⟩ := h
  refine ⟨?_, ?_, fun hz => ?_⟩
  · exact ⟨rfl, Nat.le_add_left _ _, fun hd => hd, fun hp => ⟨hp, le_rfl⟩⟩
  · by_cases hlt : t.pace < t.target_pace
    · unfold ProbeTracker.inc_pace
      rw [if_pos hlt]
      show ProbeTracker.paceInv { t with pace := t.pace + t.delta }
      unfold ProbeTracker.paceInv
      dsimp only
      refine ⟨h1, by omega, fun hd => ?_, fun hp => by omega⟩
      have := h3 hd
      omega
    · unfold ProbeTracker.inc_pace
      rw [if_neg hlt]
      exact ⟨h1, h2, h3, h4⟩
  · simp [ProbeTracker.next, hz]

/-- Claim C9 witness: the amended invariant is applied to a freshly
created (inactive) tracker. -/
theorem probeTracker_invariant_witness :
    (ProbeTracker.new 33).paceInv ∧
      ((ProbeTracker.new 33).start_probe 1000).paceInv ∧
      (ProbeTracker.new 33).inc_pace.2.paceInv ∧
      ((ProbeTracker.new 33).target_pace = 0 → (ProbeTracker.new 33).next [] = none) := by
  have h : (ProbeTracker.new 33).paceInv := by
    exact ⟨rfl, by decide, fun _ => rfl, by decide⟩
  exact ⟨h, probeTracker_invariant (ProbeTracker.new 33) 1000 [] h⟩

/-! ## Action dispatch (`runtime/src/client.rs` `core_adapt` and the
`Incoming::Adapt` arms of `TimerSource::spawn` in `runtime/src/source.rs`)

The unbounded control channel between them is modelled by applying the
sent `AdaptAction`s to the source state in order; the mutations the
source applies to its own `VideoSource` (`adapt`, `dec_degradation`) and
the posted `ProbeDone` signal are recorded as effects. -/

inductive AdaptAction where
  | toRate (rate : ℚ)
  | decreaseDegradation
  | startProbe (target : ℚ)
  | increaseProbePace
  | stopProbe
deriving DecidableEq, Repr

def PROBE_EXTRA : ℚ := 1.05

inductive SourceEffect where
  | adaptCall (bw : ℚ)
  | decDegradationCall
  | probeDoneSignal
deriving DecidableEq, Repr

/-- The `Incoming::Adapt(..)` arms of the source loop. -/
def sourceHandle (prober : ProbeTracker) :
    AdaptAction → ProbeTracker × List SourceEffect
  | .toRate rate => (prober.stop_probe, [.adaptCall rate])
  | .decreaseDegradation => (prober.stop_probe, [.decDegradationCall])
  | .startProbe target => (prober.start_probe target, [])
  | .increaseProbePace =>
      if prober.inc_pace.1 then (prober.inc_pace.2, [])
      else (prober.inc_pace.2, [.probeDoneSignal])
  | .stopProbe => (prober.stop_probe, [])

/-- `core_adapt`: run the adaptation machine and dispatch the action.
`none` models the two panics (`unimplemented!` in `transit` and the
`expect` on `next_rate_delta`). -/
def core_adapt (signal : Signal) (adaptation : Adaptation)
    (profile : SimpleProfile) :
    Option (Adaptation × SimpleProfile × List AdaptAction) := do
  let (a1, action) ← adaptation.transit signal profile.is_max
  match action with
  | .noOp => pure (a1, profile, [])
  | .adjustConfig rate => pure (a1, (profile.adjust_level rate).1, [.toRate rate])
  | .advanceConfig => pure (a1, profile.advance_level.1, [.decreaseDegradation])
  | .startProbe =>
      match profile.next_rate_delta with
      | none => none
      | some delta => pure (a1, profile, [.startProbe (PROBE_EXTRA * delta)])
  | .increaseProbePace => pure (a1, profile, [.increaseProbePace])
  | .stopProbe => pure (a1, profile, [.stopProbe])

/-- One control-plane step: `core_adapt` followed by the source applying
the sent actions in order. -/
def clientStep (signal : Signal) (a : Adaptation) (p : SimpleProfile)
    (t : ProbeTracker) :
    Option (Adaptation × SimpleProfile × ProbeTracker × List SourceEffect) := do
  let (a1, p1, sends) ← core_adapt signal a p
  let r := sends.foldl
    (fun acc act =>
      ((sourceHandle acc.1 act).1, acc.2 ++ (sourceHandle acc.1 act).2))
    (t, ([] : List SourceEffect))
  pure (a1, p1, r.1, r.2)

/-- A sequence of control-plane steps, accumulating source effects. -/
def clientRun (signals : List Signal) (a : Adaptation) (p : SimpleProfile)
    (t : ProbeTracker) :
    Option (Adaptation × SimpleProfile × ProbeTracker × List SourceEffect) :=
  match signals with
  | [] => some (a, p, t, [])
  | sg :: rest => do
      let (a1, p1, t1, effs) ← clientStep sg a p t
      let (a2, p2, t2, effs2) ← clientRun rest a1 p1 t1
      pure (a2, p2, t2, effs ++ effs2)

/-- Claim C5 counterexample: with profile bandwidths 500/1000/2000 and
level 0, two `QueueEmpty` signals from `Startup` advance the level
0 -> 1 -> 2 as claimed, but after the second signal the machine is still
in `Startup`, not `Steady`: the code moves `Startup -> Steady` only on a
`QueueEmpty` that arrives once the level is already maximal. -/
theorem startup_two_queue_empty_counterexample :
    clientRun [.queueEmpty, .queueEmpty] Adaptation.init
        ⟨[500, 1000, 2000], 0, 3⟩ (ProbeTracker.new 33) =
      some (⟨.startup, 0, 0⟩, ⟨[500, 1000, 2000], 2, 3⟩, ProbeTracker.new 33,
        [.decDegradationCall, .decDegradationCall]) ∧
    AdaptState.startup ≠ AdaptState.steady := by
  exact ⟨by decide, by decide⟩

/-- Claim C5 amended: two `QueueEmpty` signals advance the level
0 -> 1 -> 2 while the machine stays in `Startup`; a third `QueueEmpty`,
arriving with the level already at the maximum, moves the machine to
`Steady` with `NoOp`. -/
theorem startup_three_queue_empty :
    clientRun [.queueEmpty, .queueEmpty] Adaptation.init
        ⟨[500, 1000, 2000], 0, 3⟩ (ProbeTracker.new 33) =
      some (⟨.startup, 0, 0⟩, ⟨[500, 1000, 2000], 2, 3⟩, ProbeTracker.new 33,
        [.decDegradationCall, .decDegradationCall]) ∧
    clientRun [.queueEmpty, .queueEmpty, .queueEmpty] Adaptation.init
        ⟨[500, 1000, 2000], 0, 3⟩ (ProbeTracker.new 33) =
      some (⟨.steady, 0, 0⟩, ⟨[500, 1000, 2000], 2, 3⟩, ProbeTracker.new 33,
        [.decDegradationCall, .decDegradationCall]) := by
  exact ⟨by decide, by decide⟩

/-- Claim C2 counterexample: from `Steady` with a freshly reset steady
count, below the maximum level, the third consecutive `QueueEmpty` still
returns `NoOp` (the counter has only reached 3, and the code requires
`steady_count > 3`); no probe is started and the prober stays inactive. -/
theorem steady_third_queue_empty_counterexample :
    clientRun [.queueEmpty, .queueEmpty, .queueEmpty] ⟨.steady, 0, 0⟩
        ⟨[500, 1000, 2000], 1, 3⟩ (ProbeTracker.new 33) =
      some (⟨.steady, 3, 0⟩, ⟨[500, 1000, 2000], 1, 3⟩, ProbeTracker.new 33, []) ∧
    (ProbeTracker.new 33).target_pace = 0 := by
  exact ⟨by decide, rfl⟩

/-- Claim C2 amended: from `Steady` with a freshly reset steady count and
below the maximum level, the first four consecutive `QueueEmpty` signals
yield `NoOp`; the fifth produces `StartProbe`, and the dispatcher starts
the prober with target bandwidth `PROBE_EXTRA = 1.05` times the rate
delta to the next level. -/
theorem steady_fifth_queue_empty (c : ℕ) (p : SimpleProfile) (t : ProbeTracker)
    (delta : ℚ) (hmax : p.is_max = false)
    (hdelta : p.next_rate_delta = some delta) :
    (∀ k, k ≤ 3 →
      clientStep .queueEmpty ⟨.steady, k, c⟩ p t = some (⟨.steady, k + 1, c⟩, p, t, [])) ∧
    clientRun [.queueEmpty, .queueEmpty, .queueEmpty, .queueEmpty, .queueEmpty]
        ⟨.steady, 0, c⟩ p t =
      some (⟨.probe, 0, c⟩, p, t.start_probe (PROBE_EXTRA * delta), []) := by
  have hstep : ∀ k, k ≤ 3 →
      clientStep .queueEmpty ⟨.steady, k, c⟩ p t = some (⟨.steady, k + 1, c⟩, p, t, []) := by
    intro k hk
    simp [clientStep, core_adapt, Adaptation.transit, hmax, STEADY_ENOUGH,
      show ¬ 3 < k by omega]
  have hlast :
      clientStep .queueEmpty ⟨.steady, 4, c⟩ p t =
        some (⟨.probe, 0, c⟩, p, t.start_probe (PROBE_EXTRA * delta), []) := by
    simp [clientStep, core_adapt, Adaptation.transit, hmax, STEADY_ENOUGH,
      hdelta, sourceHandle]
  refine ⟨hstep, ?_⟩
  simp [clientRun, hstep 0 (by omega), hstep 1 (by omega), hstep 2 (by omega),
    hstep 3 (by omega), hlast]

/-- Claim C2 witness: the amended five-signal scenario at level 0 of a
concrete two-level profile. -/
theorem steady_fifth_queue_empty_witness :
    (SimpleProfile.mk [1000, 2000] 0 3).is_max = false ∧
      (SimpleProfile.mk [1000, 2000] 0 3).next_rate_delta = some (2000 - 1000) ∧
      clientRun [.queueEmpty, .queueEmpty, .queueEmpty, .queueEmpty, .queueEmpty]
          ⟨.steady, 0, 0⟩ (SimpleProfile.mk [1000, 2000] 0 3) (ProbeTracker.new 33) =
        some (⟨.probe, 0, 0⟩, SimpleProfile.mk [1000, 2000] 0 3,
          (ProbeTracker.new 33).start_probe (PROBE_EXTRA * (2000 - 1000)), []) := by
  refine ⟨by decide, rfl, ?_⟩
  exact (steady_fifth_queue_empty 0 (SimpleProfile.mk [1000, 2000] 0 3)
    (ProbeTracker.new 33) (2000 - 1000) (by decide) rfl).2

/-- Claim C4 amended: whenever the adaptation machine emits
`AdjustConfig(r)`, the dispatcher sends `ToRate(r)`, on which the source
loop first stops the prober and then calls `adapt` with exactly the
reported rate `r` (no conservative scaling factor is applied anywhere on
this path; the level is selected by `adjust_level r` itself). -/
theorem adjust_dispatch (a a1 : Adaptation) (p : SimpleProfile)
    (t : ProbeTracker) (signal : Signal) (r : ℚ)
    (h : a.transit signal p.is_max = some (a1, .adjustConfig r)) :
    clientStep signal a p t =
      some (a1, (p.adjust_level r).1, t.stop_probe, [.adaptCall r]) := by
  simp [clientStep, core_adapt, h, sourceHandle]

/-- Claim C4 counterexample: for `AdjustConfig(800)` in `Degrade`, the
bandwidth handed to the source adapter is exactly 800, not a conservative
`K * 800 < 800`. -/
theorem adjust_dispatch_counterexample :
    clientStep (.queueCongest 800 (.fin 120)) ⟨.degrade, 0, 0⟩ ⟨[1000], 0, 3⟩
        ⟨33, 5, 100, 20, 20⟩ =
      some (⟨.degrade, 0, 0⟩, ⟨[1000], 0, 2⟩, ⟨33, 0, 0, 0, 0⟩, [.adaptCall 800]) ∧
    ¬ ((800 : ℚ) < 800) := by
  have hb2 : binarySearchGo 800 0 ([] : List ℚ) = Sum.inr 0 := by
    rw [binarySearchGo]
    simp
  have hbs : binarySearchGo 800 0 [1000] = Sum.inr 0 := by
    rw [binarySearchGo]
    norm_num [cmpQ, hb2]
  have hgl : SimpleProfile.get_level_index ⟨[1000], 0, 3⟩ 800 = 0 := by
    unfold SimpleProfile.get_level_index
    rw [hbs]
    rfl
  have hadj : SimpleProfile.adjust_level ⟨[1000], 0, 3⟩ 800 = (⟨[1000], 0, 2⟩, none) := by
    unfold SimpleProfile.adjust_level
    rw [hgl]
    norm_num
  have htr : Adaptation.transit ⟨.degrade, 0, 0⟩ (.queueCongest 800 (.fin 120))
      (SimpleProfile.is_max ⟨[1000], 0, 3⟩) = some (⟨.degrade, 0, 0⟩, .adjustConfig 800) := rfl
  refine ⟨?_, by norm_num⟩
  rw [adjust_dispatch ⟨.degrade, 0, 0⟩ ⟨.degrade, 0, 0⟩ ⟨[1000], 0, 3⟩
    ⟨33, 5, 100, 20, 20⟩ (.queueCongest 800 (.fin 120)) 800 htr, hadj]
  rfl

/-- Claim C4 witness: the amended dispatch rule applied at the concrete
input of the counterexample. -/
theorem adjust_dispatch_witness :
    Adaptation.transit ⟨.degrade, 0, 0⟩ (.queueCongest 800 (.fin 120))
        (SimpleProfile.is_max ⟨[1000], 0, 3⟩) =
      some (⟨.degrade, 0, 0⟩, .adjustConfig 800) ∧
    clientStep (.queueCongest 800 (.fin 120)) ⟨.degrade, 0, 0⟩ ⟨[1000], 0, 3⟩
        ⟨33, 5, 100, 20, 20⟩ =
      some (⟨.degrade, 0, 0⟩, (SimpleProfile.adjust_level ⟨[1000], 0, 3⟩ 800).1,
        ProbeTracker.stop_probe ⟨33, 5, 100, 20, 20⟩, [.adaptCall 800]) := by
  have htr : Adaptation.transit ⟨.degrade, 0, 0⟩ (.queueCongest 800 (.fin 120))
      (SimpleProfile.is_max ⟨[1000], 0, 3⟩) = some (⟨.degrade, 0, 0⟩, .adjustConfig 800) := rfl
  exact ⟨htr, adjust_dispatch ⟨.degrade, 0, 0⟩ ⟨.degrade, 0, 0⟩ ⟨[1000], 0, 3⟩
    ⟨33, 5, 100, 20, 20⟩ (.queueCongest 800 (.fin 120)) 800 htr⟩

/-! ## Local monitor (`runtime/src/controller.rs`)

The two atomic byte counters are swapped to zero on each tick; the
swapped-out values enter `react_to_timer` as parameters.  The `usize`
expression `self.queued + produced - consumed` is modelled with the
release-mode wrap-around, and the possibly-infinite latency estimate is
an `F`. -/

structure ExponentialSmooth where
  val : ℚ
  alpha : ℚ
deriving DecidableEq, Repr

/-- `ExponentialSmooth::add`. -/
def ExponentialSmooth.add (e : ExponentialSmooth) (sample : ℚ) : ExponentialSmooth :=
  { e with val := e.val * e.alpha + sample * (1 - e.alpha) }

structure Monitor where
  rate : ExponentialSmooth
  queued : ℕ
  empty_count : ℕ
  probe_status : ℕ
deriving DecidableEq, Repr

def QUEUE_EMPTY_REQUIRED : ℕ := 5

def MONITOR_INTERVAL : ℕ := 100

/-- `Monitor::new` (the probe-status atomic starts at the given value,
0 in `client::run`). -/
def Monitor.new (probe_status : ℕ) : Monitor :=
  ⟨⟨0, 1 / 2⟩, 0, 0, probe_status⟩

/-- The updated queue estimate: `self.queued + produced - consumed` in
`usize` arithmetic. -/
def Monitor.queuedOf (m : Monitor) (produced consumed : ℕ) : ℕ :=
  ((((m.queued : ℤ) + (produced : ℤ) - (consumed : ℤ)) % (2 ^ 64 : ℤ))).toNat

/-- `self.rate.val() * 8.0 / MONITOR_INTERVAL` after folding in the new
consumed sample. -/
def Monitor.rateKbpsOf (m : Monitor) (consumed : ℕ) : ℚ :=
  (m.rate.add (consumed : ℚ)).val * 8 / (MONITOR_INTERVAL : ℚ)

/-- `self.queued as f64 * 8.0 / rate`. -/
def Monitor.latencyOf (m : Monitor) (produced consumed : ℕ) : F :=
  fdiv ((m.queuedOf produced consumed : ℚ) * 8) (m.rateKbpsOf consumed)

/-- `Monitor::react_to_timer`. -/
def Monitor.react_to_timer (m : Monitor) (produced consumed : ℕ) :
    Monitor × Option Signal :=
  let queued := m.queuedOf produced consumed
  let rate := m.rate.add (consumed : ℚ)
  let rateKbps := m.rateKbpsOf consumed
  let latency := m.latencyOf produced consumed
  if latency.fgt (.fin 1) then
    ({ m with queued := queued, rate := rate, empty_count := 0 },
      some (.queueCongest rateKbps latency))
  else if 0 < m.probe_status ∧ (m.probe_status : ℚ) < rateKbps then
    ({ m with queued := queued, rate := rate, probe_status := 0, empty_count := 0 },
      some .probeDone)
  else if QUEUE_EMPTY_REQUIRED < m.empty_count + 1 then
    ({ m with queued := queued, rate := rate, empty_count := 0 },
      some .queueEmpty)
  else
    ({ m with queued := queued, rate := rate, empty_count := m.empty_count + 1 },
      none)

/-- Claim C3 counterexample, in three parts.  (i) A congested tick
(`produced = 150000`, `consumed = 50000` from a fresh monitor) emits
`QueueCongest(2000, 400)` with the rate unscaled: there is no
`ALPHA_RATE = 0.9` factor, and `2000 ≠ 0.9 * 2000`.  (ii) A monitor
whose empty counter stands at 5 emits `QueueEmpty` on the next idle tick:
the required count is `QUEUE_EMPTY_REQUIRED = 5`, not 20 (the claimed
threshold would still be silent since `6 ≤ 20`).  (iii) An idle tick with
a pending probe target of 100 kbps and a rate estimate above it emits
`ProbeDone`, a branch the claim does not admit. -/
theorem monitor_tick_counterexample :
    ((Monitor.new 0).react_to_timer 150000 50000 =
      (⟨⟨25000, 1 / 2⟩, 100000, 0, 0⟩, some (.queueCongest 2000 (.fin 400))) ∧
      (2000 : ℚ) ≠ (9 / 10) * 2000) ∧
    ((Monitor.mk ⟨0, 1 / 2⟩ 0 5 0).react_to_timer 0 0 =
      (⟨⟨0, 1 / 2⟩, 0, 0, 0⟩, some .queueEmpty) ∧
      ¬ 6 > 20 ∧ QUEUE_EMPTY_REQUIRED ≠ 20) ∧
    (Monitor.mk ⟨0, 1 / 2⟩ 0 0 100).react_to_timer 12500 12500 =
      (⟨⟨6250, 1 / 2⟩, 0, 0, 0⟩, some .probeDone) := by
  refine ⟨⟨?_, by norm_num⟩, ⟨?_, by norm_num, by decide⟩, ?_⟩
  · have hq : (Monitor.new 0).queuedOf 150000 50000 = 100000 := by decide
    have hr : (Monitor.new 0).rateKbpsOf 50000 = 2000 := by
      norm_num [Monitor.rateKbpsOf, Monitor.new, ExponentialSmooth.add,
        MONITOR_INTERVAL]
    have hl : (Monitor.new 0).latencyOf 150000 50000 = .fin 400 := by
      rw [Monitor.latencyOf, hq, hr]
      norm_num [fdiv]
    rw [Monitor.react_to_timer, hq, hr, hl]
    norm_num [F.fgt, F.pcmp, Monitor.new, ExponentialSmooth.add]
  · have hq : (Monitor.mk ⟨0, 1 / 2⟩ 0 5 0).queuedOf 0 0 = 0 := by decide
    have hr : (Monitor.mk ⟨0, 1 / 2⟩ 0 5 0).rateKbpsOf 0 = 0 := by
      norm_num [Monitor.rateKbpsOf, ExponentialSmooth.add, MONITOR_INTERVAL]
    have hl : (Monitor.mk ⟨0, 1 / 2⟩ 0 5 0).latencyOf 0 0 = .nan := by
      rw [Monitor.latencyOf, hq, hr]
      norm_num [fdiv]
    rw [Monitor.react_to_timer, hq, hr, hl]
    norm_num [F.fgt, F.pcmp, ExponentialSmooth.add, QUEUE_EMPTY_REQUIRED]
  · have hq : (Monitor.mk ⟨0, 1 / 2⟩ 0 0 100).queuedOf 12500 12500 = 0 := by decide
    have hr : (Monitor.mk ⟨0, 1 / 2⟩ 0 0 100).rateKbpsOf 12500 = 500 := by
      norm_num [Monitor.rateKbpsOf, ExponentialSmooth.add, MONITOR_INTERVAL]
    have hl : (Monitor.mk ⟨0, 1 / 2⟩ 0 0 100).latencyOf 12500 12500 = .fin 0 := by
      rw [Monitor.latencyOf, hq, hr]
      norm_num [fdiv]
    rw [Monitor.react_to_timer, hq, hr, hl]
    norm_num [F.fgt, F.pcmp, ExponentialSmooth.add]

/-- Claim C3 amended: on every monitor tick, with
`latency = queued * 8 / rate` computed from the updated counters: if the
latency exceeds 1 ms, the empty counter is reset and
`QueueCongest(rate, latency)` is emitted with the rate unscaled; else if
a probe target is pending and the rate exceeds it, the probe status and
the empty counter are cleared and `ProbeDone` is emitted; else the empty
counter is incremented and, once it exceeds `QUEUE_EMPTY_REQUIRED = 5`
ticks, it is reset and `QueueEmpty` is emitted; on every other tick
nothing is emitted. -/
theorem monitor_tick (m : Monitor) (produced consumed : ℕ) :
    ((m.latencyOf produced consumed).fgt (.fin 1) = true →
      m.react_to_timer produced consumed =
        ({ m with queued := m.queuedOf produced consumed,
                  rate := m.rate.add (consumed : ℚ), empty_count := 0 },
          some (.queueCongest (m.rateKbpsOf consumed)
            (m.latencyOf produced consumed)))) ∧
    ((m.latencyOf produced consumed).fgt (.fin 1) = false →
      0 < m.probe_status → (m.probe_status : ℚ) < m.rateKbpsOf consumed →
      m.react_to_timer produced consumed =
        ({ m with queued := m.queuedOf produced consumed,
                  rate := m.rate.add (consumed : ℚ), probe_status := 0,
                  empty_count := 0 },
          some .probeDone)) ∧
    ((m.latencyOf produced consumed).fgt (.fin 1) = false →
      ¬ (0 < m.probe_status ∧ (m.probe_status : ℚ) < m.rateKbpsOf consumed) →
      QUEUE_EMPTY_REQUIRED < m.empty_count + 1 →
      m.react_to_timer produced consumed =
        ({ m with queued := m.queuedOf produced consumed,
                  rate := m.rate.add (consumed : ℚ), empty_count := 0 },
          some .queueEmpty)) ∧
    ((m.latencyOf produced consumed).fgt (.fin 1) = false →
      ¬ (0 < m.probe_status ∧ (m.probe_status : ℚ) < m.rateKbpsOf consumed) →
      ¬ QUEUE_EMPTY_REQUIRED < m.empty_count + 1 →
      m.react_to_timer produced consumed =
        ({ m with queued := m.queuedOf produced consumed,
                  rate := m.rate.add (consumed : ℚ),
                  empty_count := m.empty_count + 1 },
          none)) := by
  refine ⟨fun h1 => ?_, fun h1 h2 h3 => ?_, fun h1 h2 h3 => ?_, fun h1 h2 h3 => ?_⟩
  · rw [Monitor.react_to_timer, if_pos h1]
  · rw [Monitor.react_to_timer, if_neg (by simp [h1]), if_pos ⟨h2, h3⟩]
  · rw [Monitor.react_to_timer, if_neg (by simp [h1]), if_neg h2, if_pos h3]
  · rw [Monitor.react_to_timer, if_neg (by simp [h1]), if_neg h2, if_neg h3]

/-- Claim C3 witness: the amended tick behavior at the three concrete
inputs of the counterexample (congestion, queue-empty and probe-done
branches all realized). -/
theorem monitor_tick_witness :
    ((Monitor.new 0).latencyOf 150000 50000).fgt (.fin 1) = true ∧
      (Monitor.new 0).react_to_timer 150000 50000 =
        ({ Monitor.new 0 with
           queued := (Monitor.new 0).queuedOf 150000 50000,
           rate := (Monitor.new 0).rate.add (50000 : ℚ),
           empty_count := 0 },
          some (.queueCongest ((Monitor.new 0).rateKbpsOf 50000)
            ((Monitor.new 0).latencyOf 150000 50000))) ∧
      (Monitor.mk ⟨0, 1 / 2⟩ 0 5 0).react_to_timer 0 0 =
        ({ Monitor.mk ⟨0, 1 / 2⟩ 0 5 0 with
           queued := (Monitor.mk ⟨0, 1 / 2⟩ 0 5 0).queuedOf 0 0,
           rate := (Monitor.mk ⟨0, 1 / 2⟩ 0 5 0).rate.add (0 : ℚ),
           empty_count := 0 },
          some .queueEmpty) := by
  have hq : (Monitor.new 0).queuedOf 150000 50000 = 100000 := by decide
  have hr : (Monitor.new 0).rateKbpsOf 50000 = 2000 := by
    norm_num [Monitor.rateKbpsOf, Monitor.new, ExponentialSmooth.add,
      MONITOR_INTERVAL]
  have hl : (Monitor.new 0).latencyOf 150000 50000 = .fin 400 := by
    rw [Monitor.latencyOf, hq, hr]
    norm_num [fdiv]
  have h1 : ((Monitor.new 0).latencyOf 150000 50000).fgt (.fin 1) = true := by
    rw [hl]
    norm_num [F.fgt, F.pcmp]
  have hq2 : (Monitor.mk ⟨0, 1 / 2⟩ 0 5 0).queuedOf 0 0 = 0 := by decide
  have hr2 : (Monitor.mk ⟨0, 1 / 2⟩ 0 5 0).rateKbpsOf 0 = 0 := by
    norm_num [Monitor.rateKbpsOf, ExponentialSmooth.add, MONITOR_INTERVAL]
  have hl2 : (Monitor.mk ⟨0, 1 / 2⟩ 0 5 0).latencyOf 0 0 = .nan := by
    rw [Monitor.latencyOf, hq2, hr2]
    norm_num [fdiv]
  have h2 : ((Monitor.mk ⟨0, 1 / 2⟩ 0 5 0).latencyOf 0 0).fgt (.fin 1) = false := by
    rw [hl2]
    norm_num [F.fgt, F.pcmp]
  refine ⟨h1, (monitor_tick (Monitor.new 0) 150000 50000).1 h1, ?_⟩
  refine (monitor_tick (Monitor.mk ⟨0, 1 / 2⟩ 0 5 0) 0 0).2.2.1 h2 ?_ (by decide)
  rw [hr2]
  norm_num

/-! ## Server-side reporter (`runtime/src/server.rs`, `runtime/src/utils.rs`)

`StreamingStat` is a circular window of `f64` samples.  The reporter's
shared bandwidth monitors, the analytics log and the report sink are
external collaborators; their current readings (datum size, goodput
rate) and the wall-clock quantities (`now - datum.ts`,
`now - last_report_time`) enter as parameters. -/

structure StreamingStat where
  buffer : List F
  pos : ℕ
  capacity : ℕ
deriving DecidableEq, Repr

/-- `StreamingStat::new`. -/
def StreamingStat.new (init : F) (size : ℕ) : StreamingStat :=
  ⟨List.replicate size init, 0, size⟩

/-- `StreamingStat::add`: overwrite the current slot, wrapping the
cursor. -/
def StreamingStat.add (s : StreamingStat) (sample : F) : StreamingStat :=
  ⟨s.buffer.set s.pos sample,
    if s.pos + 1 = s.capacity then 0 else s.pos + 1, s.capacity⟩

/-- The fold inside `iter().min_by(..)`: keep the accumulator on ties
(the first minimum wins); `none` models the `partial_cmp(..).unwrap()`
panic on a NaN comparison. -/
def minByGo (acc : F) : List F → Option F
  | [] => some acc
  | y :: ys =>
      match F.pcmp y acc with
      | none => none
      | some .lt => minByGo y ys
      | some _ => minByGo acc ys

/-- `self.buffer.iter().min_by(|a, b| a.partial_cmp(b).unwrap())`,
unwrapped: `none` also models the empty-window unwrap panic. -/
def StreamingStat.minF (s : StreamingStat) : Option F :=
  match s.buffer with
  | [] => none
  | x :: xs => minByGo x xs

structure Reporter where
  net_latency : StreamingStat
  app_latency : StreamingStat
deriving DecidableEq, Repr

/-- `Reporter::new`: both latency windows are seeded with ten
`+infinity` entries. -/
def Reporter.new : Reporter :=
  ⟨StreamingStat.new .inf 10, StreamingStat.new .inf 10⟩

/-- `Reporter::update_net_latency`. -/
def Reporter.update_net_latency (r : Reporter) (latency : F) : Reporter :=
  { r with net_latency := r.net_latency.add latency }

/-- The `match ideal as u64` tolerance ladder of `latency_is_high`;
each factor is positive. -/
def toleranceFactor (n : ℕ) : ℚ :=
  if n ≤ 100 then 10 else if n ≤ 200 then 5
  else if n ≤ 300 then 4 else if n ≤ 500 then 3 else 1.5

/-- `f64 as u64`: truncation, saturating at the bounds, 0 for NaN. -/
def F.castU64 : F → ℕ
  | .nan => 0
  | .ninf => 0
  | .inf => 2 ^ 64 - 1
  | .fin q => if q < 0 then 0 else min (⌊q⌋).toNat (2 ^ 64 - 1)

/-- Multiplication by the (always positive) tolerance factor. -/
def F.scalePos (c : ℚ) : F → F
  | .nan => .nan
  | .inf => .inf
  | .ninf => .ninf
  | .fin q => .fin (c * q)

/-- `Reporter::latency_is_high`: compare the observed latency against
`tolerance * (min_net_latency + size / goodput_rate)`. -/
def Reporter.latency_is_high (r : Reporter) (current_latency : F)
    (datumLen : ℕ) (goodputRate : ℚ) : Option Bool :=
  (r.net_latency.minF).map fun net_delay =>
    let tx_delay := fdiv (datumLen : ℚ) goodputRate
    let ideal := net_delay.add tx_delay
    let expected := F.scalePos (toleranceFactor ideal.castU64) ideal
    current_latency.fgt expected

/-- `Reporter::report` for a live frame: record the latency, then send a
`ReceiverReport` (the returned flag) only if `latency_is_high` and the
previous report is more than 500 ms old.  `none` models the panic
paths. -/
def Reporter.report (r : Reporter) (latency : F) (datumLen : ℕ)
    (goodputRate : ℚ) (timeSinceLast : ℚ) : Option (Reporter × Bool) := do
  let r1 : Reporter := { r with app_latency := r.app_latency.add latency }
  let high ← r1.latency_is_high latency datumLen goodputRate
  if high then
    if 500 < timeSinceLast then pure (r1, true) else pure (r1, false)
  else pure (r1, false)

/-- Claim C10: immediately after the reporter is constructed, the
net-latency window holds ten `+infinity` entries, its minimum is
`+infinity`, `latency_is_high` returns `false` for every finite observed
latency (whatever the datum size and the goodput reading), and `report`
sends no `ReceiverReport` however large the live frame latency is. -/
theorem reporter_fresh_no_report (lat : ℚ) (datumLen : ℕ)
    (goodputRate timeSinceLast : ℚ) :
    Reporter.new.net_latency.buffer = List.replicate 10 .inf ∧
    Reporter.new.net_latency.minF = some .inf ∧
    Reporter.new.latency_is_high (.fin lat) datumLen goodputRate = some false ∧
    Reporter.new.report (.fin lat) datumLen goodputRate timeSinceLast =
      some ({ Reporter.new with
              app_latency := Reporter.new.app_latency.add (.fin lat) }, false) := by
  have hmin : Reporter.new.net_latency.minF = some .inf := by decide
  have hhigh : ∀ r : Reporter, r.net_latency = Reporter.new.net_latency →
      r.latency_is_high (.fin lat) datumLen goodputRate = some false := by
    intro r hr
    unfold Reporter.latency_is_high
    rw [hr, hmin]
    rcases hd : fdiv (datumLen : ℚ) goodputRate with _ | _ | _ | q <;>
      simp [hd, Option.map, F.add, F.scalePos, F.fgt, F.pcmp]
  refine ⟨rfl, hmin, hhigh Reporter.new rfl, ?_⟩
  have h2 := hhigh
    (Reporter.mk Reporter.new.net_latency (Reporter.new.app_latency.add (.fin lat))) rfl
  simp only [Reporter.report, h2]
  rfl

end AW
